import Mathlib

/-!
Verification development for the `cv` repository (`backend/__init__.py` and
`backend/pdflatex.py`).  The Python source is shallowly embedded: dictionaries
become association lists (insertion order preserved), Python `None` becomes
`Option.none`, machine-independent integer arithmetic becomes `Int`/`Nat`,
and raw byte strings are modelled as decoded `String`s.
-/

namespace CV

/-! ### Dates (`datetime.date`)

A calendar date.  `datetime.date` validates its fields on construction
(year in 1..9999, month in 1..12, day in 1..days-in-month); construction with
invalid fields raises, which the source catches and maps to `None`, so the
embedding exposes a validating smart constructor `mkValidDate`. -/

structure Date where
  year : Nat
  month : Nat
  day : Nat
deriving DecidableEq, Repr

/-- Python `date` comparison: lexicographic on (year, month, day). -/
def Date.blt (a b : Date) : Bool :=
  a.year < b.year ∨ (a.year = b.year ∧
    (a.month < b.month ∨ (a.month = b.month ∧ a.day < b.day)))

/-- One step of a running minimum (strict update, as in the source's
`ps if (st['first'] is None or ps < st['first']) else st['first']`). -/
def minStep (acc : Option Date) (d : Date) : Option Date :=
  match acc with
  | none => some d
  | some m => if d.blt m then some d else some m

/-- One step of a running maximum (strict update). -/
def maxStep (acc : Option Date) (d : Date) : Option Date :=
  match acc with
  | none => some d
  | some m => if m.blt d then some d else some m

def isLeap (y : Nat) : Bool := (y % 4 = 0 ∧ y % 100 ≠ 0) ∨ y % 400 = 0

def daysInMonth (y m : Nat) : Nat :=
  if m = 2 then (if isLeap y then 29 else 28)
  else if m = 4 ∨ m = 6 ∨ m = 9 ∨ m = 11 then 30
  else 31

/-- `datetime.date(y, m, d)`: `some` iff the fields form a valid date. -/
def mkValidDate (y m d : Nat) : Option Date :=
  if 1 ≤ y ∧ y ≤ 9999 ∧ 1 ≤ m ∧ m ≤ 12 ∧ 1 ≤ d ∧ d ≤ daysInMonth y m then
    some ⟨y, m, d⟩
  else
    none

/-! ### String helpers

All string manipulation is done on character lists (`String.mk`/`toList`)
so that every definition evaluates by kernel reduction on concrete input. -/

/-- The whitespace set of Python's default `str.strip`. -/
def pyWhitespaceB (c : Char) : Bool :=
  c = ' ' ∨ c = '\t' ∨ c = '\n' ∨ c = '\r' ∨ c = '\x0b' ∨ c = '\x0c'

/-- Python `str.strip()`. -/
def pyStrip (s : String) : String :=
  String.mk (((s.toList.dropWhile pyWhitespaceB).reverse.dropWhile pyWhitespaceB).reverse)

/-- ASCII lowering.  Python `str.lower()` is full Unicode, but no non-ASCII
string lowercases to one of the ASCII date sentinels, so ASCII lowering is
an adequate model for the comparison it feeds. -/
def asciiLower (c : Char) : Char :=
  if 'A' ≤ c ∧ c ≤ 'Z' then Char.ofNat (c.toNat + 32) else c

def pyLower (s : String) : String := String.mk (s.toList.map asciiLower)

def strStartsWith (s pre : String) : Bool := pre.toList.isPrefixOf s.toList

def strEndsWith (s suf : String) : Bool := suf.toList.isSuffixOf s.toList

/-- `s[n:]` (character count). -/
def strDropChars (n : Nat) (s : String) : String := String.mk (s.toList.drop n)

def splitOnChar (c : Char) : List Char → List (List Char)
  | [] => [[]]
  | x :: rest =>
    let r := splitOnChar c rest
    if x = c then [] :: r
    else
      match r with
      | h :: t => (x :: h) :: t
      | [] => [[x]]

/-- Split a string on a single-character separator (every part kept, like
Python `str.split(sep)`). -/
def strSplitOnChar (c : Char) (s : String) : List String :=
  (splitOnChar c s.toList).map String.mk

/-! ### `_parse_date` (pdflatex.py lines 44-58) -/

/-- The case-insensitive "ongoing" sentinels of `_parse_date`. -/
def sentinels : List String := ["now", "present", "current", "ongoing"]

def digitsToNat (cs : List Char) : Nat :=
  cs.foldl (fun acc c => acc * 10 + (c.toNat - '0'.toNat)) 0

/-- `_parse_date`: `None`/empty/sentinel input is "unbounded" (`none`);
`YYYY-MM` gives day 1; `YYYY` gives month 1, day 1; else try a full ISO
date; any parse or validation failure again yields `none`.  The final
branch models `date.fromisoformat` on the `YYYY-MM-DD` shape; other ISO
shapes accepted by Python are not exercised by any input in this file. -/
def parseDate : Option String → Option Date
  | none => none
  | some s0 =>
    let s := pyStrip s0
    if s = "" ∨ pyLower s ∈ sentinels then none
    else
      match s.toList with
      | [y1, y2, y3, y4, '-', m1, m2] =>
        if [y1, y2, y3, y4, m1, m2].all Char.isDigit then
          mkValidDate (digitsToNat [y1, y2, y3, y4]) (digitsToNat [m1, m2]) 1
        else none
      | [y1, y2, y3, y4] =>
        if [y1, y2, y3, y4].all Char.isDigit then
          mkValidDate (digitsToNat [y1, y2, y3, y4]) 1 1
        else none
      | [y1, y2, y3, y4, '-', m1, m2, '-', d1, d2] =>
        if [y1, y2, y3, y4, m1, m2, d1, d2].all Char.isDigit then
          mkValidDate (digitsToNat [y1, y2, y3, y4]) (digitsToNat [m1, m2])
            (digitsToNat [d1, d2])
        else none
      | _ => none

/-! ### `_fmt_ym` (lines 60-61) -/

def padNum (n w : Nat) : String :=
  let s := toString n
  String.mk (List.replicate (w - s.toList.length) '0') ++ s

/-- `_fmt_ym`: `f'{d.year:04d}-{d.month:02d}'`. -/
def fmtYm (d : Date) : String := padNum d.year 4 ++ "-" ++ padNum d.month 2

/-! ### `_months_between` (lines 63-67) -/

/-- `_months_between(a, b)`: `None` if either bound is unbounded, else
`(b.year - a.year) * 12 + (b.month - a.month)`, minus 1 if `b.day < a.day`,
floored at 0. -/
def monthsBetween : Option Date → Option Date → Option Int
  | some a, some b =>
    let months : Int := ((b.year : Int) - a.year) * 12 + ((b.month : Int) - a.month)
    some (max (months - (if b.day < a.day then 1 else 0)) 0)
  | _, _ => none

/-! ### `tr` localization (lines 29-39)

A localizable value is either a plain scalar (possibly Python `None`) or a
mapping from language code to value; `tr` does not recurse into values. -/

inductive Loc (α : Type) where
  | scalar : Option α → Loc α
  | map : List (String × α) → Loc α
deriving DecidableEq, Repr

/-- `tr(v)`: exact language-code match first, then `en`, then the first
value of the mapping in insertion order (`None` for an empty mapping);
scalars pass through unchanged. -/
def tr (lang : String) : Loc α → Option α
  | .scalar a => a
  | .map m =>
    match m.lookup lang with
    | some v => some v
    | none =>
      match m.lookup "en" with
      | some v => some v
      | none => m.head?.map Prod.snd

/-- Python truthiness of a localizable value: `None`, `''` and `{}` are
falsy (used by `meta.get('name') or sid`). -/
def Loc.falsy : Loc String → Bool
  | .scalar none => true
  | .scalar (some s) => s = ""
  | .map m => m.isEmpty

/-! ### Raw data model (the parts of the raw document the aggregation reads)

Fields of the raw document that no derived entity inspected here depends on
(summaries, responsibilities, links, contributions, contacts, education,
classes, recommendations, …) are omitted from the embedding. -/

/-- One entry of `skills.registry`. -/
structure SkillMeta where
  name : Option (Loc String)
  level : Option String
deriving DecidableEq, Repr

/-- One entry of `skills.groups`. -/
structure RawGroup where
  id : Option String
  name : Option (Loc String)
  items : List String
deriving DecidableEq, Repr

/-- One value of the `projects` mapping (keyed by project id). -/
structure RawProject where
  name : Loc String
  employer : Option String
  start : Option String
  «end» : Option String
  skills : List String
deriving DecidableEq, Repr

/-- One role of an employer (`roles` entries; only `title` is read). -/
structure RawRole where
  title : Loc String
deriving DecidableEq, Repr

/-- One value of the `employers` mapping (keyed by employer key). -/
structure RawEmployer where
  name : Loc String
  roles : List RawRole
deriving DecidableEq, Repr

/-- The inputs of `expand_intermediate` that feed the derived entities. -/
structure RawDoc where
  registry : List (String × SkillMeta)
  groups : List RawGroup
  projects : List (String × RawProject)
  employers : List (String × RawEmployer)
deriving DecidableEq, Repr

/-! ### Skill items and groups (lines 84-102 and 122-132) -/

structure SkillItem where
  id : String
  name : Option String
  level : Option String
deriving DecidableEq, Repr

/-- `tr(meta.get('name') or sid)`: a missing or falsy registry name falls
back to the skill id itself. -/
def skillName (lang : String) (meta : SkillMeta) (sid : String) : Option String :=
  match meta.name with
  | some v => if v.falsy then some sid else tr lang v
  | none => some sid

/-- `_skill_items_from_ids` (also the group-item construction of lines
89-97): resolve each id against the registry. -/
def skillItemsFromIds (lang : String) (registry : List (String × SkillMeta))
    (ids : List String) : List SkillItem :=
  ids.map (fun sid =>
    let meta := (registry.lookup sid).getD ⟨none, none⟩
    { id := sid, name := skillName lang meta sid, level := meta.level })

/-- A pre-annotation skill group (lines 98-102). -/
structure SkillGroup where
  id : Option String
  group : Option String
  items : List SkillItem
deriving DecidableEq, Repr

/-- `tr(g.get('name') or g.get('id'))`. -/
def groupLabel (lang : String) (g : RawGroup) : Option String :=
  match g.name with
  | some v => if v.falsy then g.id else tr lang v
  | none => g.id

def mkGroups (lang : String) (registry : List (String × SkillMeta))
    (groups : List RawGroup) : List SkillGroup :=
  groups.map (fun g =>
    { id := g.id, group := groupLabel lang g,
      items := skillItemsFromIds lang registry g.items })

/-! ### The project loop (lines 134-175)

One pass over the `projects` mapping builds, for each retained project, a
project entry grouped under its employer key and accumulates per-skill usage
statistics.  `by_employer` (a dict populated via `setdefault(...).append`)
and `skill_stats` (a dict populated via `setdefault` then in-place update)
are modelled as association lists with append-at-end insertion, which is
exactly Python dict insertion-order semantics. -/

/-- A derived project entry (the claim-relevant fields of lines 146-157). -/
structure ProjEntry where
  name : Option String
  start : Option String
  «end» : Option String
  durationMonths : Option Int
  skills : List SkillItem
deriving DecidableEq, Repr

/-- Per-skill usage accumulator: `{'months': 0, 'first': None, 'last': None}`. -/
structure SkillStat where
  months : Int
  first : Option Date
  last : Option Date
deriving DecidableEq, Repr

def SkillStat.init : SkillStat := ⟨0, none, none⟩

/-- `skill_stats.setdefault(sid, init)` followed by an in-place update:
update the existing binding, or append a binding for the updated default. -/
def updateStat (f : SkillStat → SkillStat) (sid : String) :
    List (String × SkillStat) → List (String × SkillStat)
  | [] => [(sid, f SkillStat.init)]
  | (k, v) :: rest =>
    if k = sid then (k, f v) :: rest else (k, v) :: updateStat f sid rest

/-- `by_employer.setdefault(emp_key, []).append(entry)`. -/
def appendEntry (ekey : String) (e : ProjEntry) :
    List (String × List ProjEntry) → List (String × List ProjEntry)
  | [] => [(ekey, [e])]
  | (k, v) :: rest =>
    if k = ekey then (k, v ++ [e]) :: rest else (k, v) :: appendEntry ekey e rest

/-- The literal sentinel tuple of line 142:
`pr.get('end') in (None, '', 'now', 'present', 'current', 'ongoing')`. -/
def endLiteralOngoing (e : Option String) : Bool :=
  e = none ∨ e = some "" ∨ e = some "now" ∨ e = some "present" ∨
    e = some "current" ∨ e = some "ongoing"

/-- Lines 140-157: the per-project entry. -/
def mkProjEntry (today : Date) (lang : String)
    (registry : List (String × SkillMeta)) (pr : RawProject) : ProjEntry :=
  let ps := parseDate pr.start
  let peRaw := parseDate pr.«end»
  let ongoing := endLiteralOngoing pr.«end» ∨ peRaw = none
  let peForDuration := peRaw.getD today
  { name := tr lang pr.name
    start := ps.map fmtYm
    «end» := if ongoing then none else peRaw.map fmtYm
    durationMonths := monthsBetween ps (some peForDuration)
    skills := skillItemsFromIds lang registry pr.skills }

/-- `_months_between(ps, pe_raw or today) or 0` (line 144). -/
def projMonths (today : Date) (pr : RawProject) : Int :=
  (monthsBetween (parseDate pr.start) (some ((parseDate pr.«end»).getD today))).getD 0

/-- Lines 160-166: one project's contribution to one skill's statistics. -/
def skillUpd (today : Date) (pr : RawProject) (s : SkillStat) : SkillStat :=
  { months := s.months + projMonths today pr
    first :=
      match parseDate pr.start with
      | none => s.first
      | some d => minStep s.first d
    last := maxStep s.last ((parseDate pr.«end»).getD today) }

/-- Lines 158-166: fold this project's months/first/last into the per-skill
statistics, once per occurrence of a skill id in the project's list. -/
def accumSkills (today : Date) (pr : RawProject)
    (stats : List (String × SkillStat)) : List (String × SkillStat) :=
  pr.skills.foldl (fun st sid => updateStat (skillUpd today pr) sid st) stats

/-- The loop state: `by_employer` and `skill_stats`. -/
structure Acc where
  byEmployer : List (String × List ProjEntry)
  skillStats : List (String × SkillStat)
deriving DecidableEq, Repr

/-- Whether the loop retains a project: not excluded by id, and with a
truthy employer reference (lines 135-139). -/
def retainedB (excl : List String) (pp : String × RawProject) : Bool :=
  pp.1 ∉ excl ∧ pp.2.employer ≠ none ∧ pp.2.employer ≠ some ""

/-- One iteration of the loop of lines 134-175. -/
def projStep (today : Date) (lang : String)
    (registry : List (String × SkillMeta)) (excl : List String)
    (acc : Acc) (pp : String × RawProject) : Acc :=
  if pp.1 ∈ excl then acc
  else
    match pp.2.employer with
    | none => acc
    | some ekey =>
      if ekey = "" then acc
      else
        { byEmployer :=
            appendEntry ekey (mkProjEntry today lang registry pp.2) acc.byEmployer
          skillStats := accumSkills today pp.2 acc.skillStats }

def processProjects (today : Date) (lang : String)
    (registry : List (String × SkillMeta)) (excl : List String)
    (projects : List (String × RawProject)) : Acc :=
  projects.foldl (projStep today lang registry excl) ⟨[], []⟩

/-! ### Employers → experience (lines 178-223) -/

/-- A derived experience entry (the claim-relevant fields of lines 213-223). -/
structure ExpEntry where
  employer : Option String
  role : Option String
  start : Option String
  «end» : Option String
  durationMonths : Option Int
  keywords : Option (List String)
  projects : List ProjEntry
deriving DecidableEq, Repr

def listMinDate (l : List Date) : Option Date := l.foldl minStep none

def listMaxDate (l : List Date) : Option Date := l.foldl maxStep none

/-- Truthiness of an optional string (`if p.get('start')` …). -/
def optTruthy (s : Option String) : Bool := s ≠ none ∧ s ≠ some ""

/-- Lines 185-189: `emp_start` from the entries' formatted start strings.
(When every element of `start_dates` is `None`, Python's `min([])` would
raise; that input cannot arise from entries built by the project loop, whose
truthy `start` strings always reparse; the model returns `none` there.) -/
def empStartOf (projects : List ProjEntry) : Option Date :=
  let startDates := (projects.filter (fun p => optTruthy p.start)).map
    (fun p => parseDate p.start)
  if startDates.isEmpty then none else listMinDate (startDates.filterMap id)

/-- Line 187: `any(p.get('end') in (None, '',) for p in projects)`. -/
def anyOngoing (projects : List ProjEntry) : Bool :=
  projects.any (fun p => p.«end» = none ∨ p.«end» = some "")

/-- Lines 186-196: the employer's stored end (`emp_end`) and the end used
for its duration (`end_for_duration`). -/
def empEndOf (today : Date) (projects : List ProjEntry) : Option Date × Date :=
  let endDatesRaw := (projects.filter (fun p => optTruthy p.«end»)).map
    (fun p => parseDate p.«end»)
  if anyOngoing projects ∨ endDatesRaw.isEmpty then (none, today)
  else
    let filtered := endDatesRaw.filterMap id
    let empEnd := listMaxDate filtered
    (empEnd, empEnd.getD today)

/-- Lines 198-204: the first role whose localized title is truthy. -/
def roleTitleOf (lang : String) (roles : List RawRole) : Option String :=
  roles.findSome? (fun r =>
    match tr lang r.title with
    | some rt => if rt = "" then none else some rt
    | none => none)

/-- Lines 206-211: localized skill names of the employer's projects,
deduplicated, first-seen order preserved; falsy names skipped. -/
def keywordsOf (projects : List ProjEntry) : List String :=
  projects.foldl (fun kw p =>
    p.skills.foldl (fun kw s =>
      match s.name with
      | some nm => if nm ≠ "" ∧ nm ∉ kw then kw ++ [nm] else kw
      | none => kw) kw) []

/-- Lines 181-223: the experience entry for one employer with a non-empty
retained-project list. -/
def empEntryFor (today : Date) (lang : String) (emp : RawEmployer)
    (projects : List ProjEntry) : ExpEntry :=
  let empStart := empStartOf projects
  let (empEnd, endForDuration) := empEndOf today projects
  let keywords := keywordsOf projects
  { employer := tr lang emp.name
    role := roleTitleOf lang emp.roles
    start := empStart.map fmtYm
    «end» := empEnd.map fmtYm
    durationMonths := monthsBetween empStart (some endForDuration)
    keywords := if keywords.isEmpty then none else some keywords
    projects := projects }

/-- Lines 178-223: one experience entry per employer key that has at least
one retained project, in employer-mapping insertion order (pre-sort). -/
def mkExperience (today : Date) (lang : String)
    (employers : List (String × RawEmployer))
    (byEmp : List (String × List ProjEntry)) : List ExpEntry :=
  employers.filterMap (fun ke =>
    match (byEmp.lookup ke.1).getD [] with
    | [] => none
    | projects => some (empEntryFor today lang ke.2 projects))

/-! ### Sorting (lines 225-230) -/

/-- `_sort_key`: negated (end.year, end.month, start.year, start.month),
with today for a missing/unparsable end and the (possibly substituted) end
for a missing/unparsable start. -/
def sortKey (today : Date) (e : ExpEntry) : Int × Int × Int × Int :=
  let endD := (parseDate e.«end»).getD today
  let startD := (parseDate e.start).getD endD
  (-(endD.year : Int), -(endD.month : Int), -(startD.year : Int), -(startD.month : Int))

def tuple4Le (a b : Int × Int × Int × Int) : Bool :=
  a.1 < b.1 ∨ (a.1 = b.1 ∧ (a.2.1 < b.2.1 ∨ (a.2.1 = b.2.1 ∧
    (a.2.2.1 < b.2.2.1 ∨ (a.2.2.1 = b.2.2.1 ∧ a.2.2.2 ≤ b.2.2.2)))))

def expLe (today : Date) (a b : ExpEntry) : Bool :=
  tuple4Le (sortKey today a) (sortKey today b)

/-- `experience.sort(key=_sort_key)`: a stable ascending sort by the key
(Python's `list.sort` and `List.mergeSort` are both stable). -/
def sortExperience (today : Date) (l : List ExpEntry) : List ExpEntry :=
  l.mergeSort (expLe today)

/-- Modelled from the spec (for comparison with `sortKey`): the sort key the
spec describes, substituting today's year/month for the entry's end *or
start* whenever that bound is absent. -/
def sortKeySpec (today : Date) (e : ExpEntry) : Int × Int × Int × Int :=
  let endD := (parseDate e.«end»).getD today
  let startD := (parseDate e.start).getD today
  (-(endD.year : Int), -(endD.month : Int), -(startD.year : Int), -(startD.month : Int))

def expLeSpec (today : Date) (a b : ExpEntry) : Bool :=
  tuple4Le (sortKeySpec today a) (sortKeySpec today b)

/-! ### Skill annotation (lines 271-284)

Python's `round` rounds half to even; on the values produced here
(`months/12.0` and `months*10/12` at CV magnitudes) the binary double is
either exactly representable or far from a decimal tie, so `round` agrees
with exact rational rounding half-to-even, which is what the model
computes (in pure integer arithmetic). -/

/-- Round `n / d` (for `d > 0`) to the nearest integer, half to even. -/
def roundHalfEvenFrac (n d : Int) : Int :=
  let fl := n.fdiv d
  let r := n - fl * d
  if 2 * r < d then fl
  else if 2 * r > d then fl + 1
  else if fl % 2 = 0 then fl else fl + 1

/-- `round(months / 12.0, 1)` in tenths: the float Python produces is
exactly `k / 10` where `k` is this integer. -/
def yearsTenths (months : Int) : Int := roundHalfEvenFrac (months * 10) 12

/-- An annotated skill item (lines 281-284).  `years` holds the tenths
numerator of the one-decimal rounded value (`years = yearsTenths months`
represents the float `yearsTenths months / 10`). -/
structure AnnItem where
  id : String
  name : Option String
  level : Option String
  months : Int
  years : Int
  firstUsed : Option String
  lastUsed : Option String
deriving DecidableEq, Repr

structure AnnGroup where
  id : Option String
  group : Option String
  items : List AnnItem
deriving DecidableEq, Repr

/-- Lines 272-284: annotate every item of every group from the usage
statistics (`skill_stats.get(sid) or {}` defaults to zero/none). -/
def annotateSkills (stats : List (String × SkillStat))
    (groups : List SkillGroup) : List AnnGroup :=
  groups.map (fun g =>
    { id := g.id, group := g.group
      items := g.items.map (fun it =>
        let st := (stats.lookup it.id).getD SkillStat.init
        let months := st.months
        { id := it.id, name := it.name, level := it.level
          months := months
          years := if months ≠ 0 then yearsTenths months else 0
          firstUsed := st.first.map fmtYm
          lastUsed := st.last.map fmtYm }) })

/-! ### Metrics (lines 286-301) -/

structure Metrics where
  experienceYears : Int
  companies : Nat
  projects : Nat
deriving DecidableEq, Repr

/-- The inner state of the metrics scan. -/
structure MetricsScan where
  earliestStart : Option Date
  latestEnd : Option Date
  totalProjects : Nat
deriving DecidableEq, Repr

def metricsStep (today : Date) (st : MetricsScan) (p : ProjEntry) : MetricsScan :=
  let ps := parseDate p.start
  let pe := parseDate p.«end»
  let earliest :=
    match ps with
    | none => st.earliestStart
    | some d =>
      match st.earliestStart with
      | none => some d
      | some e => if d.blt e then some d else some e
  let peSpan := pe.getD today
  let latest :=
    match st.latestEnd with
    | none => some peSpan
    | some l => if l.blt peSpan then some peSpan else some l
  { earliestStart := earliest, latestEnd := latest,
    totalProjects := st.totalProjects + 1 }

/-- Lines 286-301: re-scan the final experience list for the metrics. -/
def metricsOf (today : Date) (experience : List ExpEntry) : Metrics :=
  let scan := experience.foldl
    (fun st e => e.projects.foldl (metricsStep today) st)
    ⟨none, none, 0⟩
  let monthsTotal := (monthsBetween scan.earliestStart scan.latestEnd).getD 0
  { experienceYears := max (roundHalfEvenFrac monthsTotal 12) 0
    companies := experience.length
    projects := scan.totalProjects }

/-! ### The derived outputs of `expand_intermediate` -/

/-- The derived entities of the intermediate document that the raw project
set feeds (experience, annotated skill groups, metrics). -/
structure Derived where
  experience : List ExpEntry
  skills : List AnnGroup
  metrics : Metrics
deriving DecidableEq, Repr

/-- `expand_intermediate`, restricted to the derived entities: run the
project loop, assemble and sort the experience, annotate the skill groups,
compute the metrics. -/
def deriveAll (today : Date) (lang : String) (excl : List String)
    (raw : RawDoc) : Derived :=
  let acc := processProjects today lang raw.registry excl raw.projects
  let experience := sortExperience today
    (mkExperience today lang raw.employers acc.byEmployer)
  { experience := experience
    skills := annotateSkills acc.skillStats (mkGroups lang raw.registry raw.groups)
    metrics := metricsOf today experience }

/-! ### Path helpers (`os.path`) -/

/-- `os.path.join(a, b)` for a single POSIX component pair. -/
def pyJoin (a b : String) : String :=
  if strStartsWith b "/" then b
  else if a = "" then b
  else if strEndsWith a "/" then a ++ b
  else a ++ "/" ++ b

/-- `os.path.basename` for POSIX paths. -/
def pyBasename (p : String) : String := ((strSplitOnChar '/' p).getLast?).getD ""

/-! ### The result-resolution tail of `render` (pdflatex.py lines 448-522)

Collected output blobs are modelled as decoded strings (every byte string
the build script emits here is UTF-8; a decode failure would take the same
fallback branch as a parse failure). -/

/-- Python `int(s)` on a stripped string: an optional sign followed by at
least one digit (digit-group underscores, accepted by Python but never
produced by the build script, are not modelled). -/
def pyParseInt? (s : String) : Option Int :=
  let core (ds : List Char) : Option Nat :=
    if ds ≠ [] ∧ ds.all Char.isDigit then some (digitsToNat ds) else none
  match s.toList with
  | '-' :: ds => (core ds).map (fun n => -(n : Int))
  | '+' :: ds => (core ds).map (fun n => (n : Int))
  | ds => (core ds).map (fun n => (n : Int))

/-- Lines 452-459: resolve the final exit status.  `outputs_map.get('exit.code')
or b'0'` replaces an absent or empty status file by the literal `b'0'`; only
a present, non-empty, unparsable value reaches the returncode fallback
(`int(result.get('returncode') or 0)`, 0 when unavailable). -/
def resolveExitCode (outputs : List (String × String)) (returncode : Option Int) : Int :=
  let codeS :=
    match outputs.lookup "exit.code" with
    | some s => if s = "" then "0" else s
    | none => "0"
  match pyParseInt? (pyStrip codeS) with
  | some n => n
  | none => returncode.getD 0

/-- Lines 463-465: prefer a non-empty `build.log`, else `main.log`. -/
def chooseLog (outputs : List (String × String)) : String :=
  let logBytes := (outputs.lookup "build.log").getD ""
  let mainlogBytes := (outputs.lookup "main.log").getD ""
  if logBytes ≠ "" then logBytes else mainlogBytes

/-- Python `str.splitlines` restricted to `\n` separators (the only line
terminator the build log contains): split on `\n`, without a trailing empty
line for a trailing newline. -/
def pySplitlines (s : String) : List String :=
  if s = "" then []
  else
    let parts := strSplitOnChar '\n' s
    if parts.getLast? = some "" then parts.dropLast else parts

/-- `l[-n:]`. -/
def pyLastN (n : Nat) (l : List String) : List String := l.drop (l.length - n)

/-- Lines 515-517: the log tail appended to the failure message. -/
def logTail (chosen : String) : String :=
  "\n\n--- build.log (tail) ---\n" ++
    String.intercalate "\n" (pyLastN 60 (pySplitlines chosen)) ++ "\n--- end ---"

/-- Lines 448-522 (minus file persistence, a side effect with no bearing on
the returned value): resolve exit status, choose the log, and either return
the compiled artifact's path or fail with the log tail embedded. -/
def renderFinal (outDir stem : String) (outputs : List (String × String))
    (returncode : Option Int) : Except String String :=
  let exitCode := resolveExitCode outputs returncode
  let chosen := chooseLog outputs
  let pdfBytes := outputs.lookup "main.pdf"
  let outputPdf := pyJoin outDir (stem ++ ".pdf")
  let outputLog := pyJoin outDir (stem ++ ".log")
  if exitCode ≠ 0 ∨ pdfBytes = none ∨ pdfBytes = some "" then
    .error ("pdflatex failed (exit " ++ toString exitCode ++ "). See " ++
      pyBasename outputLog ++ " in " ++ outDir ++ logTail chosen)
  else
    .ok outputPdf

/-! ### `run_in_docker` input materialization (__init__.py lines 64-75) -/

/-- A value of the `files` mapping: raw bytes, Python `None`, or any other
value carried by its `str(...)` form. -/
inductive PyVal where
  | bytes : String → PyVal
  | pyNone : PyVal
  | other : String → PyVal
deriving DecidableEq, Repr

/-- Lines 70-75: bytes are written verbatim; `None` becomes an empty file;
anything else is written as its string form (UTF-8 text mode). -/
def writtenBytes : PyVal → String
  | .bytes b => b
  | .pyNone => ""
  | .other s => s

/-- `str(rel).lstrip('/')`. -/
def stripLeadingSlashes (s : String) : String :=
  String.mk (s.toList.dropWhile (· = '/'))

/-- Line 67: `str(rel).lstrip('/').replace('\\', '/')`. -/
def normalizeKey (k : String) : String :=
  String.mk ((stripLeadingSlashes k).toList.map (fun c => if c = '\\' then '/' else c))

/-- A filesystem write: overwrite an existing path, else append. -/
def assocSet [DecidableEq κ] : List (κ × α) → κ → α → List (κ × α)
  | [], k, v => [(k, v)]
  | (k', v') :: rest, k, v =>
    if k' = k then (k, v) :: rest else (k', v') :: assocSet rest k v

/-- Lines 66-75: materialize every input file at
`os.path.join(tmpdir, normalized-key)` (parent-directory creation is a
side effect with no content and is not modelled). -/
def materializeFiles (tmpdir : String) (files : List (String × PyVal)) :
    List (String × String) :=
  files.foldl
    (fun store kv => assocSet store (pyJoin tmpdir (normalizeKey kv.1)) (writtenBytes kv.2))
    []

/-! ### `run_in_docker` output collection (__init__.py lines 90-114)

The temporary workspace is modelled as a flat list of (path, bytes) files,
a path being its list of components relative to the workspace root; a path
is a directory iff some file lies strictly below it.  `glob.glob` is an
external library routine; it is abstracted as a matcher from a
workspace-relative pattern to the workspace-relative paths it matches
(hypotheses on the theorems pin down the facts used about it). -/

abbrev FsPath := List String

/-- `os.path.isdir` in the workspace model. -/
def isDirIn (fs : List (FsPath × String)) (p : FsPath) : Bool :=
  fs.any (fun f => p.isPrefixOf f.1 ∧ f.1 ≠ p)

/-- `os.walk(m)` flattened: every file strictly below `m`, keyed (as in the
source via `os.path.relpath(..., tmpdir)`) by its workspace-relative path. -/
def filesUnder (fs : List (FsPath × String)) (m : FsPath) : List (FsPath × String) :=
  fs.filter (fun f => m.isPrefixOf f.1 ∧ f.1 ≠ m)

/-- Lines 93-99: strip a `/workspace/` prefix; skip any other absolute
pattern (`none`); keep relative patterns as-is. -/
def rewritePattern (pat : String) : Option String :=
  if strStartsWith pat "/workspace/" then some (strDropChars 11 pat)
  else if strStartsWith pat "/" then none
  else some pat

/-- Lines 103-114: fold one pattern's matches into the collected mapping
(a directory match expands to the files below it; a file match reads its
bytes — `glob` only returns existing paths, so the `getD` default is
unreachable under the matcher-validity hypotheses of the theorems). -/
def collectMatches (fs : List (FsPath × String)) (ms : List FsPath)
    (store : List (FsPath × String)) : List (FsPath × String) :=
  ms.foldl (fun st m =>
    if isDirIn fs m then
      (filesUnder fs m).foldl (fun st f => assocSet st f.1 f.2) st
    else
      assocSet st m ((fs.lookup m).getD "")) store

/-- Lines 90-114: collect every output pattern into one mapping from
workspace-relative path to raw bytes. -/
def collectOutputs (fs : List (FsPath × String)) (globMatch : String → List FsPath)
    (patterns : List String) : List (FsPath × String) :=
  patterns.foldl (fun store pat =>
    match rewritePattern pat with
    | none => store
    | some rel => collectMatches fs (globMatch rel) store) []

/-! ## Helper lemmas -/

theorem monthsBetween_nonneg (a b : Option Date) (d : Int)
    (h : monthsBetween a b = some d) : 0 ≤ d := by
  cases a with
  | none => simp [monthsBetween] at h
  | some a =>
    cases b with
    | none => simp [monthsBetween] at h
    | some b =>
      simp only [monthsBetween, Option.some.injEq] at h
      subst h
      exact le_max_right _ 0

theorem mergeSort_pair {α : Type} (a b : α) (le : α → α → Bool) :
    List.mergeSort [a, b] le = if le a b then [a, b] else [b, a] := by
  rw [List.mergeSort]
  simp [List.splitInTwo, List.splitAt_eq, List.merge]

/-! ## C3: localization -/

/-- C3: `tr` returns the exact language match if present, else the `en`
entry, else the first value of the mapping in insertion order; an empty
mapping yields `none` and scalars pass through unchanged; in particular
`{fr: X, en: Y}` against `ru` yields `Y` and `{fr: X}` against `ru`
yields `X`. -/
theorem c3_tr_localization {α : Type} (lang : String) :
    (∀ (m : List (String × α)) v, m.lookup lang = some v → tr lang (Loc.map m) = some v)
    ∧ (∀ (m : List (String × α)) v, m.lookup lang = none → m.lookup "en" = some v →
        tr lang (Loc.map m) = some v)
    ∧ (∀ (m : List (String × α)), m.lookup lang = none → m.lookup "en" = none →
        tr lang (Loc.map m) = m.head?.map Prod.snd)
    ∧ tr lang (Loc.map ([] : List (String × α))) = none
    ∧ (∀ (a : Option α), tr lang (Loc.scalar a) = a)
    ∧ tr "ru" (Loc.map [("fr", "X"), ("en", "Y")]) = some "Y"
    ∧ tr "ru" (Loc.map [("fr", "X")]) = some "X" := by
  refine ⟨?_, ?_, ?_, by simp [tr], fun a => rfl, by decide, by decide⟩
  · intro m v h
    simp [tr, h]
  · intro m v h h'
    simp [tr, h, h']
  · intro m h h'
    simp [tr, h, h']

theorem c3_witness :
    tr "ru" (Loc.map [("ru", "A"), ("en", "B")]) = some "A"
    ∧ tr "ru" (Loc.map [("de", "C"), ("en", "B")]) = some "B"
    ∧ tr "ru" (Loc.map [("de", "C"), ("pl", "D")]) = some "C" :=
  ⟨(c3_tr_localization "ru").1 [("ru", "A"), ("en", "B")] "A" (by decide),
   (c3_tr_localization "ru").2.1 [("de", "C"), ("en", "B")] "B" (by decide) (by decide),
   (c3_tr_localization "ru").2.2.1 [("de", "C"), ("pl", "D")] (by decide) (by decide)⟩

/-! ## C4: `_months_between` -/

/-- C4: `_months_between` is `none` when either bound is unbounded, else
`(b.year - a.year)*12 + (b.month - a.month)`, minus 1 if `b.day < a.day`,
floored at 0; every defined result is non-negative (hence in particular for
`a ≤ b`), and the distance from a date to itself is 0. -/
theorem c4_months_between :
    (∀ x, monthsBetween none x = none)
    ∧ (∀ x, monthsBetween x none = none)
    ∧ (∀ a b : Date, monthsBetween (some a) (some b) =
        some (max ((((b.year : Int) - a.year) * 12 + ((b.month : Int) - a.month)) -
          (if b.day < a.day then 1 else 0)) 0))
    ∧ (∀ (a b : Option Date) (x : Int), monthsBetween a b = some x → 0 ≤ x)
    ∧ (∀ a : Date, monthsBetween (some a) (some a) = some 0) := by
  refine ⟨fun x => rfl, fun x => ?_, fun a b => rfl, monthsBetween_nonneg, fun a => ?_⟩
  · cases x <;> rfl
  · simp [monthsBetween]

theorem c4_witness :
    monthsBetween (some ⟨2020, 1, 1⟩) (some ⟨2020, 7, 1⟩) = some 6 ∧ (0 : Int) ≤ 6 :=
  ⟨by decide, c4_months_between.2.2.2.1 (some ⟨2020, 1, 1⟩) (some ⟨2020, 7, 1⟩) 6 (by decide)⟩

theorem strStartsWith_append (a b : String) (h : strStartsWith a "/" = true) :
    strStartsWith (a ++ b) "/" = true := by
  simp only [strStartsWith, String.toList, String.data_append,
    List.isPrefixOf_iff_prefix] at h ⊢
  exact h.trans (List.prefix_append a.data b.data)

/-! ## C7: exit-status resolution -/

/-- C7 counterexample: when no `exit.code` file was collected, the literal
default `b'0'` is parsed and the result is 0 — the sandbox return code
(here 5, which the claim prescribes) is never consulted. -/
theorem c7_counterexample :
    resolveExitCode [] (some 5) = 0 ∧ (0 : Int) ≠ 5 := by decide

/-- C7 (amended): an absent or empty `exit.code` resolves to 0 directly
(via the parsed `b'0'` default); only a present, non-empty value that does
not parse as an integer falls back to the sandbox process's return code,
which defaults to 0 when unavailable. -/
theorem c7_exit_code_resolution (outputs : List (String × String)) (rc : Option Int) :
    ((outputs.lookup "exit.code" = none ∨ outputs.lookup "exit.code" = some "") →
      resolveExitCode outputs rc = 0)
    ∧ (∀ s n, outputs.lookup "exit.code" = some s → s ≠ "" →
        pyParseInt? (pyStrip s) = some n → resolveExitCode outputs rc = n)
    ∧ (∀ s, outputs.lookup "exit.code" = some s → s ≠ "" →
        pyParseInt? (pyStrip s) = none → resolveExitCode outputs rc = rc.getD 0)
    ∧ (∀ s, rc = none → outputs.lookup "exit.code" = some s → s ≠ "" →
        pyParseInt? (pyStrip s) = none → resolveExitCode outputs rc = 0) := by
  have h0 : pyParseInt? (pyStrip "0") = some 0 := by decide
  refine ⟨?_, ?_, ?_, ?_⟩
  · rintro (h | h) <;> simp [resolveExitCode, h, h0]
  · intro s n h hne hp
    simp [resolveExitCode, h, hne, hp]
  · intro s h hne hp
    simp [resolveExitCode, h, hne, hp]
  · intro s hrc h hne hp
    simp [resolveExitCode, h, hne, hp, hrc]

/-! ## C1: exclusion filtering and employer roll-up -/

theorem foldl_filter_of_id {α β : Type} (f : β → α → β) (p : α → Bool)
    (h : ∀ acc x, p x = false → f acc x = acc) :
    ∀ (l : List α) (acc : β), (l.filter p).foldl f acc = l.foldl f acc := by
  intro l
  induction l with
  | nil => intro acc; rfl
  | cons x xs ih =>
    intro acc
    cases hx : p x with
    | true => simp [List.filter_cons, hx, ih]
    | false => simp [List.filter_cons, hx, ih, h acc x hx]

theorem projStep_not_retained (today : Date) (lang : String)
    (registry : List (String × SkillMeta)) (excl : List String) (acc : Acc)
    (pp : String × RawProject) (h : retainedB excl pp = false) :
    projStep today lang registry excl acc pp = acc := by
  have h' : ¬(pp.1 ∉ excl ∧ pp.2.employer ≠ none ∧ pp.2.employer ≠ some "") := by
    simpa [retainedB] using h
  unfold projStep
  by_cases hmem : pp.1 ∈ excl
  · simp [hmem]
  · cases he : pp.2.employer with
    | none => simp [hmem, he]
    | some e =>
      have he'' : e = "" := by
        by_contra hne
        exact h' ⟨hmem, by simp [he], by simp [he, hne]⟩
      simp [hmem, he, he'']

theorem processProjects_filter (today : Date) (lang : String)
    (registry : List (String × SkillMeta)) (excl : List String)
    (projects : List (String × RawProject)) :
    processProjects today lang registry excl (projects.filter (retainedB excl)) =
      processProjects today lang registry excl projects :=
  foldl_filter_of_id _ _
    (fun acc pp h => projStep_not_retained today lang registry excl acc pp h)
    projects ⟨[], []⟩

theorem lookup_appendEntry (ekey : String) (e : ProjEntry) (k : String) :
    ∀ m : List (String × List ProjEntry),
      ((appendEntry ekey e m).lookup k).getD [] =
        if k = ekey then ((m.lookup k).getD []) ++ [e] else (m.lookup k).getD []
  | [] => by
    by_cases h : k = ekey
    · have hb : (k == ekey) = true := beq_iff_eq.mpr h
      simp [appendEntry, List.lookup, hb, h]
    · have hb : (k == ekey) = false := beq_eq_false_iff_ne.mpr h
      simp [appendEntry, List.lookup, hb, h]
  | (k', v') :: rest => by
    by_cases h1 : k' = ekey
    · subst h1
      by_cases h2 : k = k'
      · have hb : (k == k') = true := beq_iff_eq.mpr h2
        simp [appendEntry, List.lookup, hb, h2]
      · have hb : (k == k') = false := beq_eq_false_iff_ne.mpr h2
        simp [appendEntry, List.lookup, hb, h2]
    · by_cases h2 : k = k'
      · subst h2
        have hb : (k == k) = true := beq_iff_eq.mpr rfl
        have hne : ¬k = ekey := fun h => h1 h
        simp [appendEntry, List.lookup, h1, hb, hne]
      · have hb : (k == k') = false := beq_eq_false_iff_ne.mpr h2
        simp [appendEntry, List.lookup, h1, hb, lookup_appendEntry ekey e k rest]

/-- Per-employer-key characterization of the project loop: the entry list
under key `k` is the (in-order) image of the retained projects that
reference employer `k`. -/
theorem byEmployer_foldl (today : Date) (lang : String)
    (registry : List (String × SkillMeta)) (excl : List String) :
    ∀ (l : List (String × RawProject)) (acc : Acc) (k : String),
      (((l.foldl (projStep today lang registry excl) acc).byEmployer.lookup k).getD []) =
        ((acc.byEmployer.lookup k).getD []) ++
          ((l.filter (fun pp => retainedB excl pp ∧ pp.2.employer = some k)).map
            (fun pp => mkProjEntry today lang registry pp.2)) := by
  intro l
  induction l with
  | nil => intro acc k; simp
  | cons pp rest ih =>
    intro acc k
    cases hr : retainedB excl pp with
    | false =>
      rw [List.foldl_cons, projStep_not_retained today lang registry excl acc pp hr]
      simp [List.filter_cons, hr, ih]
    | true =>
      have hrr : pp.1 ∉ excl ∧ pp.2.employer ≠ none ∧ pp.2.employer ≠ some "" := by
        simpa [retainedB] using hr
      obtain ⟨hmem, hne, hne'⟩ := hrr
      cases he : pp.2.employer with
      | none => exact absurd he hne
      | some ekey =>
        have hke : ekey ≠ "" := by
          intro h
          exact hne' (by simp [he, h])
        have hstep : projStep today lang registry excl acc pp =
            ⟨appendEntry ekey (mkProjEntry today lang registry pp.2) acc.byEmployer,
              accumSkills today pp.2 acc.skillStats⟩ := by
          simp [projStep, hmem, he, hke]
        rw [List.foldl_cons, hstep, ih]
        by_cases hk : k = ekey
        · subst hk
          simp only [List.filter_cons, hr, he, lookup_appendEntry, if_pos rfl,
            decide_True, Bool.true_and, List.append_assoc, List.singleton_append]
          simp [List.filter_cons, hr]
        · have hk' : ¬(ekey = k) := fun hcontra => hk hcontra.symm
          simp only [lookup_appendEntry, if_neg hk]
          simp [List.filter_cons, hr, he, hk']

theorem byEmployer_processProjects (today : Date) (lang : String)
    (registry : List (String × SkillMeta)) (excl : List String)
    (projects : List (String × RawProject)) (k : String) :
    (((processProjects today lang registry excl projects).byEmployer.lookup k).getD []) =
      ((projects.filter (fun pp => retainedB excl pp ∧ pp.2.employer = some k)).map
        (fun pp => mkProjEntry today lang registry pp.2)) := by
  rw [processProjects, byEmployer_foldl]
  simp

theorem mkExperience_cons (today : Date) (lang : String)
    (ke : String × RawEmployer) (rest : List (String × RawEmployer))
    (byEmp : List (String × List ProjEntry)) :
    mkExperience today lang (ke :: rest) byEmp =
      (match (byEmp.lookup ke.1).getD [] with
        | [] => mkExperience today lang rest byEmp
        | projects => empEntryFor today lang ke.2 projects ::
            mkExperience today lang rest byEmp) := by
  rw [mkExperience, List.filterMap_cons]
  cases h : ((byEmp.lookup ke.1).getD []) with
  | nil => rfl
  | cons p ps => rfl

theorem length_mkExperience (today : Date) (lang : String) :
    ∀ (emps : List (String × RawEmployer)) (byEmp : List (String × List ProjEntry)),
      (mkExperience today lang emps byEmp).length =
        (emps.filter (fun ke => !((byEmp.lookup ke.1).getD []).isEmpty)).length := by
  intro emps
  induction emps with
  | nil => intro byEmp; rfl
  | cons ke rest ih =>
    intro byEmp
    rw [mkExperience_cons]
    cases h : ((byEmp.lookup ke.1).getD []) with
    | nil => simp [List.filter_cons, h, ih byEmp]
    | cons p ps => simp [List.filter_cons, h, ih byEmp]

theorem isEmpty_filter_any {α : Type} (p : α → Bool) (l : List α) :
    (!(l.filter p).isEmpty) = l.any p := by
  induction l with
  | nil => rfl
  | cons x xs ih => cases h : p x <;> simp [List.filter_cons, h, ih]

theorem bang_isEmpty_map {α β : Type} (f : α → β) (l : List α) :
    (!((l.map f).isEmpty)) = !(l.isEmpty) := by
  cases l <;> rfl

theorem mkExperience_eq (today : Date) (lang : String) :
    ∀ (emps : List (String × RawEmployer)) (byEmp : List (String × List ProjEntry)),
      mkExperience today lang emps byEmp =
        (emps.filter (fun ke => !((byEmp.lookup ke.1).getD []).isEmpty)).map
          (fun ke => empEntryFor today lang ke.2 ((byEmp.lookup ke.1).getD []))
  | [], _ => rfl
  | ke :: rest, byEmp => by
    rw [mkExperience_cons]
    cases h : ((byEmp.lookup ke.1).getD []) with
    | nil => simp [List.filter_cons, h, mkExperience_eq today lang rest byEmp]
    | cons p ps => simp [List.filter_cons, h, mkExperience_eq today lang rest byEmp]

/-- C1: dropping the non-retained projects (excluded by id, or with an
absent/empty employer reference) changes none of the derived outputs —
experience entries and their project lists, skill-usage annotations, and
metrics are all computed from retained projects only; and an employer key
contributes an experience entry iff at least one retained project
references it. -/
theorem c1_exclusion_invariance (today : Date) (lang : String) (excl : List String)
    (raw : RawDoc) :
    deriveAll today lang excl { raw with projects := raw.projects.filter (retainedB excl) } =
      deriveAll today lang excl raw
    ∧ mkExperience today lang raw.employers
        (processProjects today lang raw.registry excl raw.projects).byEmployer =
      (raw.employers.filter (fun ke =>
          raw.projects.any (fun pp => retainedB excl pp ∧ pp.2.employer = some ke.1))).map
        (fun ke => empEntryFor today lang ke.2
          ((raw.projects.filter
            (fun pp => retainedB excl pp ∧ pp.2.employer = some ke.1)).map
            (fun pp => mkProjEntry today lang raw.registry pp.2)))
    ∧ (deriveAll today lang excl raw).experience.length =
        (raw.employers.filter (fun ke =>
          raw.projects.any (fun pp => retainedB excl pp ∧ pp.2.employer = some ke.1))).length := by
  have hcong : ∀ ke ∈ raw.employers,
      (!(((processProjects today lang raw.registry excl
          raw.projects).byEmployer.lookup ke.1).getD []).isEmpty) =
        raw.projects.any (fun pp => retainedB excl pp ∧ pp.2.employer = some ke.1) := by
    intro ke _
    rw [byEmployer_processProjects, bang_isEmpty_map, isEmpty_filter_any]
  refine ⟨?_, ?_, ?_⟩
  · simp only [deriveAll]
    rw [processProjects_filter]
  · rw [mkExperience_eq, List.filter_congr hcong]
    apply List.map_congr_left
    intro ke _
    rw [byEmployer_processProjects]
  · have hexp : (deriveAll today lang excl raw).experience =
        sortExperience today (mkExperience today lang raw.employers
          (processProjects today lang raw.registry excl raw.projects).byEmployer) := rfl
    rw [hexp, sortExperience, List.length_mergeSort, length_mkExperience]
    rw [List.filter_congr hcong]

/-! ## C5: ongoing ends -/

/-- Every entry of the final experience list is the employer roll-up of a
non-empty retained-project list for some raw employer. -/
theorem mem_experience_struct (today : Date) (lang : String) (excl : List String)
    (raw : RawDoc) (e : ExpEntry)
    (h : e ∈ (deriveAll today lang excl raw).experience) :
    ∃ ke ∈ raw.employers, ∃ projects : List ProjEntry, projects ≠ [] ∧
      e = empEntryFor today lang ke.2 projects := by
  have h' : e ∈ mkExperience today lang raw.employers
      (processProjects today lang raw.registry excl raw.projects).byEmployer := by
    have hd : (deriveAll today lang excl raw).experience =
        sortExperience today (mkExperience today lang raw.employers
          (processProjects today lang raw.registry excl raw.projects).byEmployer) := rfl
    rw [hd, sortExperience] at h
    exact List.mem_mergeSort.1 h
  rw [mkExperience] at h'
  obtain ⟨ke, hke, hfe⟩ := List.mem_filterMap.1 h'
  cases hgd : (((processProjects today lang raw.registry excl
      raw.projects).byEmployer.lookup ke.1).getD []) with
  | nil => rw [hgd] at hfe; exact absurd hfe (by simp)
  | cons p ps =>
    rw [hgd] at hfe
    exact ⟨ke, hke, p :: ps, by simp, (Option.some.inj hfe).symm⟩

/-- C5: a retained project whose raw end is absent, empty, a sentinel, or
unparsable has `end = none` stored (today is never written as a literal
end) while its duration is computed against today; an experience entry with
at least one ongoing project has `end = none` and duration computed from
its start against today; and every defined duration is non-negative. -/
theorem c5_ongoing (today : Date) (lang : String) (registry : List (String × SkillMeta))
    (excl : List String) (raw : RawDoc) :
    (∀ pr : RawProject, parseDate pr.«end» = none →
      (mkProjEntry today lang registry pr).«end» = none ∧
      (mkProjEntry today lang registry pr).durationMonths =
        monthsBetween (parseDate pr.start) (some today))
    ∧ (∀ e ∈ (deriveAll today lang excl raw).experience,
        (∃ p ∈ e.projects, p.«end» = none) →
        e.«end» = none ∧
        e.durationMonths = monthsBetween (empStartOf e.projects) (some today))
    ∧ (∀ (a b : Option Date) (d : Int), monthsBetween a b = some d → 0 ≤ d) := by
  refine ⟨?_, ?_, monthsBetween_nonneg⟩
  · intro pr h
    exact ⟨by simp [mkProjEntry, h], by simp [mkProjEntry, h]⟩
  · intro e he hex
    obtain ⟨ke, hke, projects, hne, rfl⟩ := mem_experience_struct today lang excl raw e he
    obtain ⟨p, hp, hpe⟩ := hex
    have hp' : p ∈ projects := hp
    have hany : anyOngoing projects = true := by
      simp only [anyOngoing, List.any_eq_true]
      exact ⟨p, hp', by simp [hpe]⟩
    have hend : empEndOf today projects = (none, today) := by
      simp [empEndOf, hany]
    constructor
    · simp [empEntryFor, hend]
    · simp [empEntryFor, hend]

theorem c5_witness :
    (mkProjEntry ⟨2026, 10, 12⟩ "en" [("s", ⟨some (Loc.scalar (some "S")), none⟩)]
        ⟨Loc.scalar (some "P"), some "acme", some "2020-01", some "now", ["s"]⟩).«end» = none
    ∧ (mkProjEntry ⟨2026, 10, 12⟩ "en" [("s", ⟨some (Loc.scalar (some "S")), none⟩)]
        ⟨Loc.scalar (some "P"), some "acme", some "2020-01", some "now", ["s"]⟩).durationMonths =
        monthsBetween (parseDate (some "2020-01")) (some ⟨2026, 10, 12⟩)
    ∧ (⟨some "Acme", none, some "2020-01", none, some 81, some ["S"],
        [⟨some "P", some "2020-01", none, some 81, [⟨"s", some "S", none⟩]⟩]⟩ : ExpEntry).«end» = none
    ∧ (⟨some "Acme", none, some "2020-01", none, some 81, some ["S"],
        [⟨some "P", some "2020-01", none, some 81, [⟨"s", some "S", none⟩]⟩]⟩ : ExpEntry).durationMonths =
        monthsBetween
          (empStartOf [⟨some "P", some "2020-01", none, some 81, [⟨"s", some "S", none⟩]⟩])
          (some ⟨2026, 10, 12⟩) := by
  have h1 := (c5_ongoing ⟨2026, 10, 12⟩ "en" [("s", ⟨some (Loc.scalar (some "S")), none⟩)] []
    ⟨[("s", ⟨some (Loc.scalar (some "S")), none⟩)], [⟨some "g", some (Loc.scalar (some "G")), ["s"]⟩],
      [("p", ⟨Loc.scalar (some "P"), some "acme", some "2020-01", some "now", ["s"]⟩)],
      [("acme", ⟨Loc.scalar (some "Acme"), []⟩)]⟩).1
    ⟨Loc.scalar (some "P"), some "acme", some "2020-01", some "now", ["s"]⟩ (by decide)
  have hexp : (deriveAll ⟨2026, 10, 12⟩ "en" []
      ⟨[("s", ⟨some (Loc.scalar (some "S")), none⟩)], [⟨some "g", some (Loc.scalar (some "G")), ["s"]⟩],
        [("p", ⟨Loc.scalar (some "P"), some "acme", some "2020-01", some "now", ["s"]⟩)],
        [("acme", ⟨Loc.scalar (some "Acme"), []⟩)]⟩).experience =
      [⟨some "Acme", none, some "2020-01", none, some 81, some ["S"],
        [⟨some "P", some "2020-01", none, some 81, [⟨"s", some "S", none⟩]⟩]⟩] := by
    have hd : (deriveAll ⟨2026, 10, 12⟩ "en" []
        ⟨[("s", ⟨some (Loc.scalar (some "S")), none⟩)], [⟨some "g", some (Loc.scalar (some "G")), ["s"]⟩],
          [("p", ⟨Loc.scalar (some "P"), some "acme", some "2020-01", some "now", ["s"]⟩)],
          [("acme", ⟨Loc.scalar (some "Acme"), []⟩)]⟩).experience =
        sortExperience ⟨2026, 10, 12⟩
          [⟨some "Acme", none, some "2020-01", none, some 81, some ["S"],
            [⟨some "P", some "2020-01", none, some 81, [⟨"s", some "S", none⟩]⟩]⟩] := by
      show sortExperience _ (mkExperience _ _ _ _) = _
      rw [show mkExperience ⟨2026, 10, 12⟩ "en"
          [("acme", ⟨Loc.scalar (some "Acme"), []⟩)]
          (processProjects ⟨2026, 10, 12⟩ "en" [("s", ⟨some (Loc.scalar (some "S")), none⟩)] []
            [("p", ⟨Loc.scalar (some "P"), some "acme", some "2020-01", some "now", ["s"]⟩)]).byEmployer =
          [⟨some "Acme", none, some "2020-01", none, some 81, some ["S"],
            [⟨some "P", some "2020-01", none, some 81, [⟨"s", some "S", none⟩]⟩]⟩] from by decide]
    rw [hd, sortExperience, List.mergeSort_singleton]
  have h2 := (c5_ongoing ⟨2026, 10, 12⟩ "en" [("s", ⟨some (Loc.scalar (some "S")), none⟩)] []
    ⟨[("s", ⟨some (Loc.scalar (some "S")), none⟩)], [⟨some "g", some (Loc.scalar (some "G")), ["s"]⟩],
      [("p", ⟨Loc.scalar (some "P"), some "acme", some "2020-01", some "now", ["s"]⟩)],
      [("acme", ⟨Loc.scalar (some "Acme"), []⟩)]⟩).2.1
    ⟨some "Acme", none, some "2020-01", none, some 81, some ["S"],
      [⟨some "P", some "2020-01", none, some 81, [⟨"s", some "S", none⟩]⟩]⟩
    (by rw [hexp]; exact List.mem_singleton.2 rfl)
    ⟨⟨some "P", some "2020-01", none, some 81, [⟨"s", some "S", none⟩]⟩, by decide, rfl⟩
  exact ⟨h1.1, h1.2, h2.1, h2.2⟩

/-! ## C6: experience ordering -/

theorem tuple4Le_trans (a b c : Int × Int × Int × Int)
    (hab : tuple4Le a b = true) (hbc : tuple4Le b c = true) : tuple4Le a c = true := by
  obtain ⟨a1, a2, a3, a4⟩ := a
  obtain ⟨b1, b2, b3, b4⟩ := b
  obtain ⟨c1, c2, c3, c4⟩ := c
  simp only [tuple4Le, decide_eq_true_eq] at hab hbc ⊢
  omega

theorem tuple4Le_total (a b : Int × Int × Int × Int) :
    tuple4Le a b || tuple4Le b a := by
  obtain ⟨a1, a2, a3, a4⟩ := a
  obtain ⟨b1, b2, b3, b4⟩ := b
  simp only [tuple4Le, Bool.or_eq_true, decide_eq_true_eq]
  omega

/-- C6 counterexample: an employer whose projects have no parsable start
but a concrete end sorts by the code's key (which substitutes the entry's
*end*, not today, for the missing start); with a sibling employer of equal
end and a start lying between that end and today, the produced order
violates the claim's key, which substitutes today's year/month for the
missing start. -/
theorem c6_counterexample :
    ¬ List.Pairwise (fun a b => expLeSpec ⟨2026, 10, 12⟩ a b = true)
      ((deriveAll ⟨2026, 10, 12⟩ "en" []
        ⟨[], [],
          [("pa", ⟨Loc.scalar (some "PA"), some "a", some "garbage", some "2030-01", []⟩),
           ("pb", ⟨Loc.scalar (some "PB"), some "b", some "2028-01", some "2030-01", []⟩)],
          [("a", ⟨Loc.scalar (some "A"), []⟩), ("b", ⟨Loc.scalar (some "B"), []⟩)]⟩).experience) := by
  have hexp : (deriveAll ⟨2026, 10, 12⟩ "en" []
      ⟨[], [],
        [("pa", ⟨Loc.scalar (some "PA"), some "a", some "garbage", some "2030-01", []⟩),
         ("pb", ⟨Loc.scalar (some "PB"), some "b", some "2028-01", some "2030-01", []⟩)],
        [("a", ⟨Loc.scalar (some "A"), []⟩), ("b", ⟨Loc.scalar (some "B"), []⟩)]⟩).experience =
      [⟨some "A", none, none, some "2030-01", none, none,
          [⟨some "PA", none, some "2030-01", none, []⟩]⟩,
       ⟨some "B", none, some "2028-01", some "2030-01", some 24, none,
          [⟨some "PB", some "2028-01", some "2030-01", some 24, []⟩]⟩] := by
    have hd : (deriveAll ⟨2026, 10, 12⟩ "en" []
        ⟨[], [],
          [("pa", ⟨Loc.scalar (some "PA"), some "a", some "garbage", some "2030-01", []⟩),
           ("pb", ⟨Loc.scalar (some "PB"), some "b", some "2028-01", some "2030-01", []⟩)],
          [("a", ⟨Loc.scalar (some "A"), []⟩), ("b", ⟨Loc.scalar (some "B"), []⟩)]⟩).experience =
        sortExperience ⟨2026, 10, 12⟩
          [⟨some "A", none, none, some "2030-01", none, none,
              [⟨some "PA", none, some "2030-01", none, []⟩]⟩,
           ⟨some "B", none, some "2028-01", some "2030-01", some 24, none,
              [⟨some "PB", some "2028-01", some "2030-01", some 24, []⟩]⟩] := by
      show sortExperience _ (mkExperience _ _ _ _) = _
      rw [show mkExperience ⟨2026, 10, 12⟩ "en"
          [("a", ⟨Loc.scalar (some "A"), []⟩), ("b", ⟨Loc.scalar (some "B"), []⟩)]
          (processProjects ⟨2026, 10, 12⟩ "en" [] []
            [("pa", ⟨Loc.scalar (some "PA"), some "a", some "garbage", some "2030-01", []⟩),
             ("pb", ⟨Loc.scalar (some "PB"), some "b", some "2028-01", some "2030-01", []⟩)]).byEmployer =
          [⟨some "A", none, none, some "2030-01", none, none,
              [⟨some "PA", none, some "2030-01", none, []⟩]⟩,
           ⟨some "B", none, some "2028-01", some "2030-01", some 24, none,
              [⟨some "PB", some "2028-01", some "2030-01", some 24, []⟩]⟩] from by decide]
    rw [hd, sortExperience, mergeSort_pair]
    rw [if_pos (by decide)]
  rw [hexp]
  intro h
  have := (List.pairwise_cons.1 h).1 _ (List.mem_singleton.2 rfl)
  exact absurd this (by decide)

/-- C6 (amended): the final experience list is a stable descending sort of
the assembled entries by the 4-tuple (end.year, end.month, start.year,
start.month), where today's year/month is substituted for a missing or
unparsable end, and the (already substituted) end — not today — is
substituted for a missing or unparsable start. -/
theorem c6_sorted (today : Date) (lang : String) (excl : List String) (raw : RawDoc) :
    List.Pairwise (fun a b => expLe today a b = true)
      ((deriveAll today lang excl raw).experience)
    ∧ ((deriveAll today lang excl raw).experience).Perm
        (mkExperience today lang raw.employers
          (processProjects today lang raw.registry excl raw.projects).byEmployer) := by
  constructor
  · have hd : (deriveAll today lang excl raw).experience =
        sortExperience today (mkExperience today lang raw.employers
          (processProjects today lang raw.registry excl raw.projects).byEmployer) := rfl
    rw [hd, sortExperience]
    exact List.sorted_mergeSort
      (fun a b c h1 h2 =>
        tuple4Le_trans (sortKey today a) (sortKey today b) (sortKey today c) h1 h2)
      (fun a b => tuple4Le_total (sortKey today a) (sortKey today b)) _
  · have hd : (deriveAll today lang excl raw).experience =
        sortExperience today (mkExperience today lang raw.employers
          (processProjects today lang raw.registry excl raw.projects).byEmployer) := rfl
    rw [hd, sortExperience]
    exact List.mergeSort_perm _ _

/-! ## C8: skill-usage aggregation -/

theorem lookup_updateStat (f : SkillStat → SkillStat) (sid k : String) :
    ∀ m : List (String × SkillStat),
      (updateStat f sid m).lookup k =
        if k = sid then some (f ((m.lookup k).getD SkillStat.init)) else m.lookup k
  | [] => by
    by_cases h : k = sid
    · subst h
      have hb : (k == k) = true := beq_iff_eq.mpr rfl
      simp [updateStat, List.lookup, hb]
    · have hb : (k == sid) = false := beq_eq_false_iff_ne.mpr h
      simp [updateStat, List.lookup, hb, h]
  | (k', v') :: rest => by
    by_cases h1 : k' = sid
    · subst h1
      by_cases h2 : k = k'
      · subst h2
        have hb : (k == k) = true := beq_iff_eq.mpr rfl
        simp [updateStat, List.lookup, hb]
      · have hb : (k == k') = false := beq_eq_false_iff_ne.mpr h2
        simp [updateStat, List.lookup, hb, h2]
    · by_cases h2 : k = k'
      · subst h2
        have hb : (k == k) = true := beq_iff_eq.mpr rfl
        have hns : ¬k = sid := fun h => h1 h
        simp [updateStat, h1, List.lookup, hb, hns]
      · have hb : (k == k') = false := beq_eq_false_iff_ne.mpr h2
        simp [updateStat, h1, List.lookup, hb, lookup_updateStat f sid k rest]

theorem lookup_foldl_updateStat (f : SkillStat → SkillStat) (s : String) :
    ∀ (sids : List String) (st : List (String × SkillStat)), sids.Nodup →
      ((sids.foldl (fun st sid => updateStat f sid st) st).lookup s) =
        if s ∈ sids then some (f ((st.lookup s).getD SkillStat.init)) else st.lookup s
  | [], st, _ => by simp
  | sid :: rest, st, h => by
    have hnin : sid ∉ rest := (List.nodup_cons.1 h).1
    have hnd : rest.Nodup := (List.nodup_cons.1 h).2
    rw [List.foldl_cons, lookup_foldl_updateStat f s rest (updateStat f sid st) hnd]
    by_cases hs : s = sid
    · subst hs
      rw [if_neg hnin, lookup_updateStat, if_pos rfl, if_pos (List.mem_cons_self ..)]
    · rw [lookup_updateStat, if_neg hs]
      by_cases hsr : s ∈ rest
      · rw [if_pos hsr, if_pos (List.mem_cons_of_mem _ hsr)]
      · rw [if_neg hsr, if_neg (by simp [hs, hsr])]

theorem lookup_accumSkills (today : Date) (pr : RawProject)
    (st : List (String × SkillStat)) (s : String) (h : pr.skills.Nodup) :
    (accumSkills today pr st).lookup s =
      if s ∈ pr.skills then some (skillUpd today pr ((st.lookup s).getD SkillStat.init))
      else st.lookup s := by
  rw [accumSkills]
  exact lookup_foldl_updateStat _ s pr.skills st h

/-- Per-skill characterization of the project loop: the statistics under
skill id `s` are the fold of the per-project update over the retained
projects that reference `s`. -/
theorem skillStats_foldl (today : Date) (lang : String)
    (registry : List (String × SkillMeta)) (excl : List String) :
    ∀ (l : List (String × RawProject)) (acc : Acc) (s : String),
      (∀ pp ∈ l, pp.2.skills.Nodup) →
      ((l.foldl (projStep today lang registry excl) acc).skillStats).lookup s =
        ((l.filter (fun pp => retainedB excl pp ∧ s ∈ pp.2.skills)).foldl
          (fun st pp => some (skillUpd today pp.2 (st.getD SkillStat.init)))
          (acc.skillStats.lookup s)) := by
  intro l
  induction l with
  | nil => intro acc s _; simp
  | cons pp rest ih =>
    intro acc s hnd
    have hndp : pp.2.skills.Nodup := hnd pp (List.mem_cons_self ..)
    have hndr : ∀ q ∈ rest, q.2.skills.Nodup :=
      fun q hq => hnd q (List.mem_cons_of_mem _ hq)
    cases hr : retainedB excl pp with
    | false =>
      rw [List.foldl_cons, projStep_not_retained today lang registry excl acc pp hr]
      simp [List.filter_cons, hr, ih acc s hndr]
    | true =>
      have hrr : pp.1 ∉ excl ∧ pp.2.employer ≠ none ∧ pp.2.employer ≠ some "" := by
        simpa [retainedB] using hr
      obtain ⟨hmem, hne, hne'⟩ := hrr
      cases he : pp.2.employer with
      | none => exact absurd he hne
      | some ekey =>
        have hke : ekey ≠ "" := fun h => hne' (by simp [he, h])
        have hstep : projStep today lang registry excl acc pp =
            ⟨appendEntry ekey (mkProjEntry today lang registry pp.2) acc.byEmployer,
              accumSkills today pp.2 acc.skillStats⟩ := by
          simp [projStep, hmem, he, hke]
        rw [List.foldl_cons, hstep, ih _ s hndr]
        by_cases hs : s ∈ pp.2.skills
        · simp [List.filter_cons, hr, hs, lookup_accumSkills today pp.2 acc.skillStats s hndp]
        · simp [List.filter_cons, hr, hs, lookup_accumSkills today pp.2 acc.skillStats s hndp]

theorem skillStats_processProjects (today : Date) (lang : String)
    (registry : List (String × SkillMeta)) (excl : List String)
    (projects : List (String × RawProject)) (s : String)
    (hnd : ∀ pp ∈ projects, pp.2.skills.Nodup) :
    ((processProjects today lang registry excl projects).skillStats).lookup s =
      ((projects.filter (fun pp => retainedB excl pp ∧ s ∈ pp.2.skills)).foldl
        (fun st pp => some (skillUpd today pp.2 (st.getD SkillStat.init))) none) := by
  rw [processProjects, skillStats_foldl today lang registry excl projects ⟨[], []⟩ s hnd]
  rfl

theorem statFold_months (today : Date) :
    ∀ (L : List (String × RawProject)) (start : Option SkillStat),
      ((L.foldl (fun st pp => some (skillUpd today pp.2 (st.getD SkillStat.init)))
          start).getD SkillStat.init).months =
        (start.getD SkillStat.init).months + (L.map (fun pp => projMonths today pp.2)).sum
  | [], start => by simp
  | pp :: rest, start => by
    rw [List.foldl_cons, statFold_months today rest _]
    simp [skillUpd]
    omega

theorem statFold_first (today : Date) :
    ∀ (L : List (String × RawProject)) (start : Option SkillStat),
      ((L.foldl (fun st pp => some (skillUpd today pp.2 (st.getD SkillStat.init)))
          start).getD SkillStat.init).first =
        (L.filterMap (fun pp => parseDate pp.2.start)).foldl minStep
          ((start.getD SkillStat.init)).first
  | [], start => by simp
  | pp :: rest, start => by
    rw [List.foldl_cons, statFold_first today rest _]
    cases hps : parseDate pp.2.start with
    | none => simp [skillUpd, hps, List.filterMap_cons]
    | some d => simp [skillUpd, hps, List.filterMap_cons]

theorem statFold_last (today : Date) :
    ∀ (L : List (String × RawProject)) (start : Option SkillStat),
      ((L.foldl (fun st pp => some (skillUpd today pp.2 (st.getD SkillStat.init)))
          start).getD SkillStat.init).last =
        (L.map (fun pp => (parseDate pp.2.«end»).getD today)).foldl maxStep
          ((start.getD SkillStat.init)).last
  | [], start => by simp
  | pp :: rest, start => by
    rw [List.foldl_cons, statFold_last today rest _]
    simp [skillUpd]

theorem annotate_mem (stats : List (String × SkillStat)) (groups : List SkillGroup) :
    ∀ g ∈ annotateSkills stats groups, ∀ it ∈ g.items,
      it.months = ((stats.lookup it.id).getD SkillStat.init).months
      ∧ it.firstUsed = (((stats.lookup it.id).getD SkillStat.init).first).map fmtYm
      ∧ it.lastUsed = (((stats.lookup it.id).getD SkillStat.init).last).map fmtYm
      ∧ it.years = (if it.months ≠ 0 then yearsTenths it.months else 0) := by
  intro g hg it hit
  rw [annotateSkills] at hg
  obtain ⟨g0, _, rfl⟩ := List.mem_map.1 hg
  obtain ⟨it0, _, rfl⟩ := List.mem_map.1 hit
  exact ⟨rfl, rfl, rfl, rfl⟩

/-- C8: for every skill id in any group of the output, the annotated
`months` is the sum of the durations (end-or-today) of the retained
projects referencing it, `first_used` is the minimum concrete project start
(formatted, `none` if no concrete start), `last_used` is the maximum of
each such project's end-or-today (formatted), and `years` is
`round(months/12, 1)` (in tenths).  The data-model assumption is that a
project lists each skill id at most once (the loop accumulates once per
occurrence). -/
theorem c8_skill_usage (today : Date) (lang : String) (excl : List String) (raw : RawDoc)
    (hnd : ∀ pp ∈ raw.projects, pp.2.skills.Nodup) :
    ∀ g ∈ (deriveAll today lang excl raw).skills, ∀ it ∈ g.items,
      it.months = ((raw.projects.filter
          (fun pp => retainedB excl pp ∧ it.id ∈ pp.2.skills)).map
          (fun pp => projMonths today pp.2)).sum
      ∧ it.firstUsed = (listMinDate ((raw.projects.filter
          (fun pp => retainedB excl pp ∧ it.id ∈ pp.2.skills)).filterMap
          (fun pp => parseDate pp.2.start))).map fmtYm
      ∧ it.lastUsed = (listMaxDate ((raw.projects.filter
          (fun pp => retainedB excl pp ∧ it.id ∈ pp.2.skills)).map
          (fun pp => (parseDate pp.2.«end»).getD today))).map fmtYm
      ∧ it.years = yearsTenths it.months := by
  intro g hg it hit
  have hskills : (deriveAll today lang excl raw).skills =
      annotateSkills (processProjects today lang raw.registry excl raw.projects).skillStats
        (mkGroups lang raw.registry raw.groups) := rfl
  rw [hskills] at hg
  obtain ⟨h1, h2, h3, h4⟩ := annotate_mem _ _ g hg it hit
  rw [skillStats_processProjects today lang raw.registry excl raw.projects it.id hnd]
    at h1 h2 h3
  refine ⟨?_, ?_, ?_, ?_⟩
  · rw [h1, statFold_months]
    simp [SkillStat.init]
  · rw [h2, statFold_first]
    rfl
  · rw [h3, statFold_last]
    rfl
  · rw [h4]
    by_cases hm : it.months = 0
    · rw [if_neg (not_not_intro hm), hm]
      decide
    · rw [if_pos hm]

theorem c8_witness :
    (10 : Int) = (([("p1", (⟨Loc.scalar (some "P1"), some "acme", some "2020-01-01",
          some "2020-07-01", ["s"]⟩ : RawProject)),
        ("p2", ⟨Loc.scalar (some "P2"), some "acme", some "2021-01-01",
          some "2021-05-01", ["s"]⟩)].filter
        (fun pp => retainedB [] pp ∧ "s" ∈ pp.2.skills)).map
        (fun pp => projMonths ⟨2026, 10, 12⟩ pp.2)).sum
    ∧ (some "2020-01" : Option String) = (listMinDate (([("p1",
          (⟨Loc.scalar (some "P1"), some "acme", some "2020-01-01",
            some "2020-07-01", ["s"]⟩ : RawProject)),
        ("p2", ⟨Loc.scalar (some "P2"), some "acme", some "2021-01-01",
          some "2021-05-01", ["s"]⟩)].filter
        (fun pp => retainedB [] pp ∧ "s" ∈ pp.2.skills)).filterMap
        (fun pp => parseDate pp.2.start))).map fmtYm
    ∧ (some "2021-05" : Option String) = (listMaxDate (([("p1",
          (⟨Loc.scalar (some "P1"), some "acme", some "2020-01-01",
            some "2020-07-01", ["s"]⟩ : RawProject)),
        ("p2", ⟨Loc.scalar (some "P2"), some "acme", some "2021-01-01",
          some "2021-05-01", ["s"]⟩)].filter
        (fun pp => retainedB [] pp ∧ "s" ∈ pp.2.skills)).map
        (fun pp => (parseDate pp.2.«end»).getD ⟨2026, 10, 12⟩))).map fmtYm
    ∧ (8 : Int) = yearsTenths 10 := by
  have happ := c8_skill_usage ⟨2026, 10, 12⟩ "en" []
      ⟨[("s", ⟨some (Loc.scalar (some "S")), none⟩)],
        [⟨some "g", some (Loc.scalar (some "G")), ["s"]⟩],
        [("p1", ⟨Loc.scalar (some "P1"), some "acme", some "2020-01-01",
            some "2020-07-01", ["s"]⟩),
         ("p2", ⟨Loc.scalar (some "P2"), some "acme", some "2021-01-01",
            some "2021-05-01", ["s"]⟩)],
        [("acme", ⟨Loc.scalar (some "Acme"), []⟩)]⟩ (by decide)
      ⟨some "g", some "G", [⟨"s", some "S", none, 10, 8, some "2020-01", some "2021-05"⟩]⟩
      (by decide)
      ⟨"s", some "S", none, 10, 8, some "2020-01", some "2021-05"⟩ (by decide)
  exact ⟨happ.1, happ.2.1, happ.2.2.1, happ.2.2.2⟩

/-! ## Association-store lemmas (for C9 and C10) -/

theorem lookup_assocSet {κ α : Type} [DecidableEq κ] [BEq κ] [LawfulBEq κ] (k : κ) (v : α) :
    ∀ (store : List (κ × α)) (k' : κ),
      (assocSet store k v).lookup k' = if k' = k then some v else store.lookup k'
  | [], k' => by
    by_cases h : k' = k
    · subst h
      simp [assocSet, List.lookup_cons]
    · simp [assocSet, List.lookup_cons, h, beq_eq_false_iff_ne.mpr h]
  | (k0, v0) :: rest, k' => by
    by_cases h0 : k0 = k
    · subst h0
      by_cases h : k' = k0
      · subst h
        simp [assocSet, List.lookup_cons]
      · simp [assocSet, List.lookup_cons, h, beq_eq_false_iff_ne.mpr h]
    · by_cases h : k' = k0
      · subst h
        have hne : ¬k' = k := fun hh => h0 (hh ▸ rfl)
        simp [assocSet, h0, List.lookup_cons, hne]
      · simp [assocSet, h0, List.lookup_cons, beq_eq_false_iff_ne.mpr h,
          lookup_assocSet k v rest k']

theorem mem_assocSet {κ α : Type} [DecidableEq κ] (e : κ × α) (k : κ) (v : α) :
    ∀ store : List (κ × α), e ∈ assocSet store k v → e = (k, v) ∨ e ∈ store
  | [] => by simp [assocSet]
  | (k0, v0) :: rest => by
    by_cases h0 : k0 = k
    · subst h0
      intro h
      rcases List.mem_cons.1 (by simpa [assocSet] using h) with h1 | h1
      · exact Or.inl h1
      · exact Or.inr (List.mem_cons_of_mem _ h1)
    · intro h
      rcases List.mem_cons.1 (by simpa [assocSet, h0] using h) with h1 | h1
      · exact Or.inr (h1 ▸ List.mem_cons_self ..)
      · rcases mem_assocSet e k v rest h1 with h2 | h2
        · exact Or.inl h2
        · exact Or.inr (List.mem_cons_of_mem _ h2)

theorem lookup_foldl_assocSet_of_ne {κ α β : Type} [DecidableEq κ] [BEq κ] [LawfulBEq κ]
    (key : β → κ) (val : β → α) (p : κ) :
    ∀ (l : List β) (store : List (κ × α)), (∀ b ∈ l, key b ≠ p) →
      (l.foldl (fun st b => assocSet st (key b) (val b)) store).lookup p = store.lookup p
  | [], _, _ => rfl
  | b :: rest, store, h => by
    rw [List.foldl_cons,
      lookup_foldl_assocSet_of_ne key val p rest _
        (fun c hc => h c (List.mem_cons_of_mem _ hc)),
      lookup_assocSet, if_neg (fun hp => h b (List.mem_cons_self ..) hp.symm)]

theorem lookup_foldl_assocSet_mem {κ α β : Type} [DecidableEq κ] [BEq κ] [LawfulBEq κ]
    (key : β → κ) (val : β → α) :
    ∀ (l : List β) (store : List (κ × α)) (b : β), b ∈ l → (l.map key).Nodup →
      (l.foldl (fun st b => assocSet st (key b) (val b)) store).lookup (key b) =
        some (val b)
  | [], _, b, hb, _ => absurd hb (by simp)
  | b0 :: rest, store, b, hb, hnd => by
    rw [List.map_cons, List.nodup_cons] at hnd
    obtain ⟨hnotin, hnd'⟩ := hnd
    rcases List.mem_cons.1 hb with rfl | hbr
    · rw [List.foldl_cons,
        lookup_foldl_assocSet_of_ne key val (key b) rest _
          (fun c hc he => hnotin (he ▸ List.mem_map_of_mem key hc)),
        lookup_assocSet, if_pos rfl]
    · rw [List.foldl_cons]
      exact lookup_foldl_assocSet_mem key val rest _ b hbr hnd'

theorem mem_foldl_assocSet {κ α β : Type} [DecidableEq κ] (key : β → κ) (val : β → α) :
    ∀ (l : List β) (store : List (κ × α)) (e : κ × α),
      e ∈ l.foldl (fun st b => assocSet st (key b) (val b)) store →
      (∃ b ∈ l, e = (key b, val b)) ∨ e ∈ store
  | [], _, _, h => Or.inr h
  | b0 :: rest, store, e, h => by
    rw [List.foldl_cons] at h
    rcases mem_foldl_assocSet key val rest _ e h with ⟨b, hb, he⟩ | h2
    · exact Or.inl ⟨b, List.mem_cons_of_mem _ hb, he⟩
    · rcases mem_assocSet e _ _ store h2 with h3 | h3
      · exact Or.inl ⟨b0, List.mem_cons_self .., h3⟩
      · exact Or.inr h3

theorem mem_of_lookup {κ α : Type} [BEq κ] [LawfulBEq κ] (k : κ) (v : α) :
    ∀ l : List (κ × α), l.lookup k = some v → (k, v) ∈ l
  | [] => by simp
  | (k0, v0) :: rest => by
    intro h
    rw [List.lookup_cons] at h
    cases hk : (k == k0) with
    | true =>
      rw [hk] at h
      have hk' : k = k0 := beq_iff_eq.mp hk
      subst hk'
      exact (Option.some.inj h) ▸ List.mem_cons_self ..
    | false =>
      rw [hk] at h
      exact List.mem_cons_of_mem _ (mem_of_lookup k v rest h)

/-! ## C10: input-file materialization -/

/-- C10: every entry of the `files` mapping is materialized at
`os.path.join(tmpdir, key')`, where `key'` is the key with leading `/`
stripped and every backslash replaced by `/` (so `/a/b` lands at `a/b`
inside the workspace); bytes content is written verbatim, `None` becomes an
empty file, and any other content is written as its string form. -/
theorem c10_materialize (tmpdir : String) (files : List (String × PyVal))
    (hnd : (files.map (fun kv => pyJoin tmpdir (normalizeKey kv.1))).Nodup) :
    (∀ kv ∈ files,
      (materializeFiles tmpdir files).lookup (pyJoin tmpdir (normalizeKey kv.1)) =
        some (writtenBytes kv.2))
    ∧ normalizeKey "/a/b" = "a/b"
    ∧ (∀ k, normalizeKey k =
        String.mk ((k.toList.dropWhile (· = '/')).map (fun c => if c = '\\' then '/' else c)))
    ∧ (∀ b, writtenBytes (PyVal.bytes b) = b)
    ∧ writtenBytes PyVal.pyNone = ""
    ∧ (∀ s, writtenBytes (PyVal.other s) = s) := by
  refine ⟨?_, by decide, fun k => rfl, fun b => rfl, rfl, fun s => rfl⟩
  intro kv hkv
  exact lookup_foldl_assocSet_mem (fun kv => pyJoin tmpdir (normalizeKey kv.1))
    (fun kv => writtenBytes kv.2) files [] kv hkv hnd

theorem c10_witness :
    (materializeFiles "/t" [("/a/b", PyVal.bytes "B"), ("c", PyVal.pyNone),
        ("d\\e", PyVal.other "42")]).lookup
        (pyJoin "/t" (normalizeKey "/a/b")) = some (writtenBytes (PyVal.bytes "B"))
    ∧ (materializeFiles "/t" [("/a/b", PyVal.bytes "B"), ("c", PyVal.pyNone),
        ("d\\e", PyVal.other "42")]).lookup
        (pyJoin "/t" (normalizeKey "d\\e")) = some (writtenBytes (PyVal.other "42"))
    ∧ normalizeKey "/a/b" = "a/b" :=
  ⟨(c10_materialize "/t" [("/a/b", PyVal.bytes "B"), ("c", PyVal.pyNone),
      ("d\\e", PyVal.other "42")] (by decide)).1 ("/a/b", PyVal.bytes "B") (by decide),
   (c10_materialize "/t" [("/a/b", PyVal.bytes "B"), ("c", PyVal.pyNone),
      ("d\\e", PyVal.other "42")] (by decide)).1 ("d\\e", PyVal.other "42") (by decide),
   (c10_materialize "/t" [("/a/b", PyVal.bytes "B"), ("c", PyVal.pyNone),
      ("d\\e", PyVal.other "42")] (by decide)).2.1⟩

/-! ## C9: output collection -/

theorem mem_collectMatches (fs : List (FsPath × String)) :
    ∀ (ms : List FsPath) (store : List (FsPath × String)) (e : FsPath × String),
      e ∈ collectMatches fs ms store →
      e ∈ store ∨ ∃ m ∈ ms,
        (isDirIn fs m = true ∧ e ∈ filesUnder fs m) ∨
        (isDirIn fs m = false ∧ e = (m, (fs.lookup m).getD ""))
  | [], _, _, h => Or.inl h
  | m0 :: rest, store, e, h => by
    rw [collectMatches, List.foldl_cons] at h
    rcases mem_collectMatches fs rest _ e h with h1 | ⟨m, hm, hcase⟩
    · by_cases hd : isDirIn fs m0 = true
      · rw [if_pos hd] at h1
        rcases mem_foldl_assocSet Prod.fst Prod.snd (filesUnder fs m0) store e h1 with
          ⟨b, hb, he⟩ | h2
        · refine Or.inr ⟨m0, List.mem_cons_self .., Or.inl ⟨hd, ?_⟩⟩
          rw [he]
          simpa using hb
        · exact Or.inl h2
      · rw [if_neg hd] at h1
        rcases mem_assocSet e m0 _ store h1 with h3 | h3
        · exact Or.inr ⟨m0, List.mem_cons_self ..,
            Or.inr ⟨by simpa using hd, h3⟩⟩
        · exact Or.inl h3
    · exact Or.inr ⟨m, List.mem_cons_of_mem _ hm, hcase⟩

theorem mem_collectOutputs_fold (fs : List (FsPath × String)) (g : String → List FsPath) :
    ∀ (pats : List String) (store : List (FsPath × String)) (e : FsPath × String),
      e ∈ pats.foldl (fun store pat =>
          match rewritePattern pat with
          | none => store
          | some rel => collectMatches fs (g rel) store) store →
      e ∈ store ∨ ∃ q ∈ pats, ∃ rel, rewritePattern q = some rel ∧ ∃ m ∈ g rel,
        (isDirIn fs m = true ∧ e ∈ filesUnder fs m) ∨
        (isDirIn fs m = false ∧ e = (m, (fs.lookup m).getD ""))
  | [], _, _, h => Or.inl h
  | q0 :: rest, store, e, h => by
    rw [List.foldl_cons] at h
    rcases mem_collectOutputs_fold fs g rest _ e h with h1 | ⟨q, hq, rel, hrel, hrest⟩
    · cases hrw : rewritePattern q0 with
      | none =>
        rw [hrw] at h1
        exact Or.inl h1
      | some rel =>
        rw [hrw] at h1
        rcases mem_collectMatches fs (g rel) store e h1 with h2 | ⟨m, hm, hcase⟩
        · exact Or.inl h2
        · exact Or.inr ⟨q0, List.mem_cons_self .., rel, hrw, m, hm, hcase⟩
    · exact Or.inr ⟨q, List.mem_cons_of_mem _ hq, rel, hrel, hrest⟩

/-- C9: a pattern with no matches contributes no entries (and, the
collection being a total function, raises nothing); an absolute pattern
outside `/workspace` is silently skipped; a matched directory expands to
every file below it; and every collected entry maps a workspace-relative
path to that file's bytes in the workspace. -/
theorem c9_output_collection (fs : List (FsPath × String)) (g : String → List FsPath)
    (pat : String) (pats : List String) :
    (∀ rel, rewritePattern pat = some rel → g rel = [] →
      collectOutputs fs g (pat :: pats) = collectOutputs fs g pats)
    ∧ (strStartsWith pat "/" = true → strStartsWith pat "/workspace/" = false →
      collectOutputs fs g (pat :: pats) = collectOutputs fs g pats)
    ∧ (∀ (m : FsPath) (store : List (FsPath × String)), isDirIn fs m = true →
        (fs.map Prod.fst).Nodup →
        ∀ f ∈ filesUnder fs m, (collectMatches fs [m] store).lookup f.1 = some f.2)
    ∧ ((∀ q ∈ pats, ∀ m ∈ ((rewritePattern q).map g).getD [],
          isDirIn fs m = true ∨ (fs.lookup m).isSome = true) →
        ∀ e ∈ collectOutputs fs g pats, e ∈ fs) := by
  refine ⟨?_, ?_, ?_, ?_⟩
  · intro rel h1 h2
    show (pat :: pats).foldl _ [] = pats.foldl _ []
    rw [List.foldl_cons]
    simp only [h1, h2]
    rfl
  · intro h1 h2
    have hrw : rewritePattern pat = none := by
      simp [rewritePattern, h1, h2]
    show (pat :: pats).foldl _ [] = pats.foldl _ []
    rw [List.foldl_cons]
    simp only [hrw]
  · intro m store hdir hnd f hf
    have hsub : ((filesUnder fs m).map Prod.fst).Nodup :=
      List.Nodup.sublist (List.Sublist.map _ (List.filter_sublist fs)) hnd
    have hcm : collectMatches fs [m] store =
        (filesUnder fs m).foldl (fun st f => assocSet st f.1 f.2) store := by
      simp [collectMatches, hdir]
    rw [hcm]
    exact lookup_foldl_assocSet_mem Prod.fst Prod.snd (filesUnder fs m) store f hf hsub
  · intro hvalid e he
    rcases mem_collectOutputs_fold fs g pats [] e he with h | ⟨q, hq, rel, hrel, m, hm, hcase⟩
    · exact absurd h (by simp)
    · rcases hcase with ⟨_, hmem⟩ | ⟨hndir, heq⟩
      · exact List.mem_of_mem_filter hmem
      · rcases hvalid q hq m (by rw [hrel]; simpa using hm) with hdir | hsome
        · rw [hndir] at hdir
          exact absurd hdir (by simp)
        · obtain ⟨v, hv⟩ := Option.isSome_iff_exists.1 hsome
          rw [heq, hv]
          exact mem_of_lookup m v fs hv

theorem c9_witness :
    collectOutputs [(["a", "b.txt"], "x"), (["d", "f1"], "y"), (["d", "f2"], "z")]
        (fun pat => if pat = "d" then [["d"]]
          else if pat = "a/b.txt" then [["a", "b.txt"]] else []) ["miss.pdf", "d"] =
      collectOutputs [(["a", "b.txt"], "x"), (["d", "f1"], "y"), (["d", "f2"], "z")]
        (fun pat => if pat = "d" then [["d"]]
          else if pat = "a/b.txt" then [["a", "b.txt"]] else []) ["d"]
    ∧ collectOutputs [(["a", "b.txt"], "x"), (["d", "f1"], "y"), (["d", "f2"], "z")]
        (fun pat => if pat = "d" then [["d"]]
          else if pat = "a/b.txt" then [["a", "b.txt"]] else []) ["/etc/passwd", "d"] =
      collectOutputs [(["a", "b.txt"], "x"), (["d", "f1"], "y"), (["d", "f2"], "z")]
        (fun pat => if pat = "d" then [["d"]]
          else if pat = "a/b.txt" then [["a", "b.txt"]] else []) ["d"]
    ∧ (collectMatches [(["a", "b.txt"], "x"), (["d", "f1"], "y"), (["d", "f2"], "z")]
        [["d"]] []).lookup ["d", "f1"] = some "y"
    ∧ (["a", "b.txt"], "x") ∈
        [(["a", "b.txt"], "x"), (["d", "f1"], "y"), (["d", "f2"], "z")] := by
  refine ⟨?_, ?_, ?_, ?_⟩
  · exact (c9_output_collection _ _ "miss.pdf" ["d"]).1 "miss.pdf" (by decide) (by decide)
  · exact (c9_output_collection _ _ "/etc/passwd" ["d"]).2.1 (by decide) (by decide)
  · exact (c9_output_collection [(["a", "b.txt"], "x"), (["d", "f1"], "y"), (["d", "f2"], "z")]
      (fun pat => if pat = "d" then [["d"]]
        else if pat = "a/b.txt" then [["a", "b.txt"]] else []) "d" ["d"]).2.2.1
      ["d"] [] (by decide) (by decide) (["d", "f1"], "y") (by decide)
  · exact (c9_output_collection [(["a", "b.txt"], "x"), (["d", "f1"], "y"), (["d", "f2"], "z")]
      (fun pat => if pat = "d" then [["d"]]
        else if pat = "a/b.txt" then [["a", "b.txt"]] else []) "d" ["a/b.txt"]).2.2.2
      (by decide) (["a", "b.txt"], "x") (by decide)

/-! ## C2: final render outcome -/

/-- C2 counterexample: with a relative output directory the successful
return value is the (relative) path of the persisted artifact, not an
absolute path as the claim states. -/
theorem c2_counterexample :
    renderFinal "out" "cv" [("exit.code", "0"), ("main.pdf", "P"), ("build.log", "L")]
        (some 0) = Except.ok "out/cv.pdf"
    ∧ strStartsWith "out/cv.pdf" "/" = false :=
  ⟨rfl, by decide⟩

/-- C2 (amended): `render` succeeds iff the resolved exit status is 0 and
the collected `main.pdf` is present and non-empty; on success it returns
the path of the persisted artifact (`out_dir`-joined, absolute whenever the
output directory is absolute); otherwise it raises an error whose message
embeds the last 60 lines of the chosen log. -/
theorem c2_render_outcome (outDir stem : String) (outputs : List (String × String))
    (rc : Option Int) :
    ((∃ p, renderFinal outDir stem outputs rc = Except.ok p) ↔
      (resolveExitCode outputs rc = 0 ∧ outputs.lookup "main.pdf" ≠ none ∧
        outputs.lookup "main.pdf" ≠ some ""))
    ∧ (∀ p, renderFinal outDir stem outputs rc = Except.ok p →
        p = pyJoin outDir (stem ++ ".pdf"))
    ∧ (∀ p, strStartsWith outDir "/" = true →
        renderFinal outDir stem outputs rc = Except.ok p → strStartsWith p "/" = true)
    ∧ (∀ msg, renderFinal outDir stem outputs rc = Except.error msg →
        ∃ pre post,
          msg = pre ++ String.intercalate "\n" (pyLastN 60 (pySplitlines (chooseLog outputs)))
            ++ post) := by
  by_cases hC : (resolveExitCode outputs rc ≠ 0 ∨ outputs.lookup "main.pdf" = none ∨
      outputs.lookup "main.pdf" = some "")
  · have hr : renderFinal outDir stem outputs rc =
        Except.error ("pdflatex failed (exit " ++ toString (resolveExitCode outputs rc) ++
          "). See " ++ pyBasename (pyJoin outDir (stem ++ ".log")) ++ " in " ++ outDir ++
          logTail (chooseLog outputs)) := by
      simp only [renderFinal]
      rw [if_pos hC]
    refine ⟨?_, ?_, ?_, ?_⟩
    · constructor
      · rintro ⟨p, hp⟩
        rw [hr] at hp
        exact absurd hp (by simp)
      · rintro ⟨h1, h2, h3⟩
        rcases hC with h | h | h <;> simp_all
    · intro p hp
      rw [hr] at hp
      exact absurd hp (by simp)
    · intro p _ hp
      rw [hr] at hp
      exact absurd hp (by simp)
    · intro msg hmsg
      rw [hr] at hmsg
      refine ⟨"pdflatex failed (exit " ++ toString (resolveExitCode outputs rc) ++
        "). See " ++ pyBasename (pyJoin outDir (stem ++ ".log")) ++ " in " ++ outDir ++
        "\n\n--- build.log (tail) ---\n", "\n--- end ---", ?_⟩
      injection hmsg.symm with h
      subst h
      simp only [logTail, String.append_assoc]
  · have hr : renderFinal outDir stem outputs rc =
        Except.ok (pyJoin outDir (stem ++ ".pdf")) := by
      simp only [renderFinal]
      rw [if_neg hC]
    push_neg at hC
    refine ⟨?_, ?_, ?_, ?_⟩
    · exact ⟨fun _ => hC, fun _ => ⟨_, hr⟩⟩
    · intro p hp
      rw [hr] at hp
      injection hp with h
      exact h.symm
    · intro p habs hp
      rw [hr] at hp
      injection hp with h
      subst h
      by_cases hb : strStartsWith (stem ++ ".pdf") "/" = true
      · simp [pyJoin, hb]
      · by_cases ho : outDir = ""
        · rw [ho] at habs
          exact absurd habs (by decide)
        · by_cases he : strEndsWith outDir "/" = true
          · simp only [pyJoin, hb, ho, he, if_false, if_true]
            simp only [Bool.not_eq_true] at hb
            simp [hb, ho, he, strStartsWith_append _ _ habs]
          · simp only [Bool.not_eq_true] at hb he
            simp only [pyJoin, hb, ho, he, if_false]
            exact strStartsWith_append _ _ (strStartsWith_append _ _ habs)
    · intro msg hmsg
      rw [hr] at hmsg
      exact absurd hmsg (by simp)

theorem c2_witness :
    "/o/s.pdf" = pyJoin "/o" ("s" ++ ".pdf")
    ∧ strStartsWith "/o/s.pdf" "/" = true
    ∧ (∃ pre post,
        "pdflatex failed (exit 0). See s.log in o\n\n--- build.log (tail) ---\n\n--- end ---" =
          pre ++ String.intercalate "\n" (pyLastN 60 (pySplitlines (chooseLog []))) ++ post) :=
  ⟨(c2_render_outcome "/o" "s" [("exit.code", "0"), ("main.pdf", "P")] none).2.1
      "/o/s.pdf" rfl,
   (c2_render_outcome "/o" "s" [("exit.code", "0"), ("main.pdf", "P")] none).2.2.1
      "/o/s.pdf" (by decide) rfl,
   (c2_render_outcome "o" "s" [] none).2.2.2
      "pdflatex failed (exit 0). See s.log in o\n\n--- build.log (tail) ---\n\n--- end ---"
      rfl⟩

theorem c7_witness :
    resolveExitCode [("exit.code", " 7 ")] (some 3) = 7
    ∧ resolveExitCode [("exit.code", "x")] (some 3) = 3
    ∧ resolveExitCode [("exit.code", "")] (some 3) = 0
    ∧ resolveExitCode [("exit.code", "x")] none = 0 :=
  ⟨(c7_exit_code_resolution [("exit.code", " 7 ")] (some 3)).2.1 " 7 " 7
      (by decide) (by decide) (by decide),
   (c7_exit_code_resolution [("exit.code", "x")] (some 3)).2.2.1 "x"
      (by decide) (by decide) (by decide),
   (c7_exit_code_resolution [("exit.code", "")] (some 3)).1 (Or.inr (by decide)),
   (c7_exit_code_resolution [("exit.code", "x")] none).2.2.2 "x" rfl
      (by decide) (by decide) (by decide)⟩

end CV
